import Mathlib

/-
Formal model of the ml-model-registry application core: the data model and
the status-transition gate, model registration, metadata update, the
list/filter/pagination contract, the statistics aggregator, the frontend
API client wrapper, query-string building, and the tag form state.

The frontend sources (React pages, the types module, the API service and
the hooks) are the authority for the definitions taken from code; the
backend entity store is described only by the specification contract, so
the store operations are modelled from the spec and marked as such.
-/

namespace MLRegistry

/-- Deployment status of a model, from the DeploymentStatus union type in
the frontend types module. -/
inductive DeploymentStatus where
  | development
  | staging
  | production
  | archived
deriving DecidableEq, Repr

/-- Machine-learning framework, from the Framework union type in the
frontend types module: the closed enumeration sklearn, tensorflow,
pytorch, xgboost, lightgbm, onnx, other. -/
inductive Framework where
  | sklearn
  | tensorflow
  | pytorch
  | xgboost
  | lightgbm
  | onnx
  | other
deriving DecidableEq, Repr

/-- A registered model record, from the Model interface in the frontend
types module. Timestamps are modelled as natural clock ticks and metric
values as integers (the claims only compare them for equality). -/
structure Model where
  id : Nat
  name : String
  description : Option String
  framework : Framework
  status : DeploymentStatus
  current_version : Option String
  metrics : List (String × Int)
  tags : List String
  author : Option String
  created_at : Nat
  updated_at : Nat
deriving DecidableEq, Repr

/-- A version record, from the ModelVersion interface in the frontend
types module. -/
structure ModelVersion where
  id : Nat
  model_id : Nat
  version : String
  metrics : List (String × Int)
  changelog : Option String
  created_at : Nat
deriving DecidableEq, Repr

/-- Error taxonomy of the contract (section 7 of the spec). -/
inductive RegistryError where
  | NotFound
  | Conflict
  | InvalidArgument
  | InvalidTransition
deriving DecidableEq, Repr

/-- The fixed transition table, from the statusTransitions constant in
ModelDetail.tsx: development to staging or archived; staging to
production, development or archived; production to staging or archived;
archived to development. -/
def statusTransitions : DeploymentStatus → List DeploymentStatus
  | .development => [.staging, .archived]
  | .staging => [.production, .development, .archived]
  | .production => [.staging, .archived]
  | .archived => [.development]

/-- The registry state: the stored models and versions, a fresh-id
counter and the current clock. -/
structure Registry where
  models : List Model
  versions : List ModelVersion
  nextId : Nat
  now : Nat

/-- Look a model up by id. -/
def Registry.findModel (r : Registry) (id : Nat) : Option Model :=
  r.models.find? (fun m => m.id == id)

/-- Replace the stored model that has the same id as the given one. -/
def Registry.setModel (r : Registry) (m : Model) : Registry :=
  { r with models := r.models.map (fun x => if x.id == m.id then m else x) }

/-- Modelled from the spec: the Status Transition Gate (section 4.4).
The backend implementation is not part of the sources; per the contract,
transition fails with NotFound if the model is absent, fails with
InvalidTransition if the target is not in the allowed set of the current
status (the table statusTransitions, which the frontend mirrors), and on
success updates status and updated_at only. The first component of the
result is the registry after the call; on failure it is unchanged. -/
def Registry.transition (r : Registry) (id : Nat) (t : DeploymentStatus) :
    Registry × Except RegistryError Model :=
  match r.findModel id with
  | none => (r, .error .NotFound)
  | some m =>
    if t ∈ statusTransitions m.status then
      let m2 : Model := { m with status := t, updated_at := r.now }
      (r.setModel m2, .ok m2)
    else
      (r, .error .InvalidTransition)

/-- A sample model used to instantiate theorems with hypotheses. -/
def sampleModel : Model :=
  { id := 1, name := "churn-v1", description := none,
    framework := .sklearn, status := .development,
    current_version := some "1.0.0", metrics := [("accuracy", 95)],
    tags := ["nlp"], author := some "ana", created_at := 3, updated_at := 4 }

/-- A sample registry holding the sample model. -/
def sampleRegistry : Registry :=
  { models := [sampleModel], versions := [], nextId := 2, now := 7 }

/-- C1: a transition succeeds exactly when the (current, target) pair is
in the transition table; otherwise it fails with InvalidTransition and
leaves the registry (hence the status of the model) unchanged; a
self-transition is never in the table, so it always fails. -/
theorem transition_gate_exactly_table (r : Registry) (id : Nat)
    (t : DeploymentStatus) (m : Model) (hm : r.findModel id = some m) :
    m.status ∉ statusTransitions m.status ∧
    (t ∉ statusTransitions m.status →
      (r.transition id t).2 = Except.error RegistryError.InvalidTransition ∧
      (r.transition id t).1 = r) ∧
    (t ∈ statusTransitions m.status →
      ∃ m2, (r.transition id t).2 = Except.ok m2) := by
  refine ⟨?_, ?_, ?_⟩
  · cases m.status <;> simp [statusTransitions]
  · intro ht
    simp only [Registry.transition, hm]
    rw [if_neg ht]
    exact ⟨rfl, rfl⟩
  · intro ht
    simp only [Registry.transition, hm]
    rw [if_pos ht]
    exact ⟨_, rfl⟩

/-- Witness for C1 at a concrete registry, model and target status. -/
theorem transition_gate_exactly_table_witness :
    sampleRegistry.findModel 1 = some sampleModel ∧
    (sampleModel.status ∉ statusTransitions sampleModel.status ∧
     (DeploymentStatus.production ∉ statusTransitions sampleModel.status →
       (sampleRegistry.transition 1 .production).2 =
         Except.error RegistryError.InvalidTransition ∧
       (sampleRegistry.transition 1 .production).1 = sampleRegistry) ∧
     (DeploymentStatus.production ∈ statusTransitions sampleModel.status →
       ∃ m2, (sampleRegistry.transition 1 .production).2 = Except.ok m2)) :=
  ⟨by decide, transition_gate_exactly_table sampleRegistry 1 .production sampleModel (by decide)⟩

/-- C2: a successful transition changes exactly status and updated_at of
the model; id, name, description, framework, current_version, metrics,
tags, author and created_at are unchanged, and the version records of the
registry are unchanged. -/
theorem transition_frame (r : Registry) (id : Nat) (t : DeploymentStatus)
    (m : Model) (hm : r.findModel id = some m)
    (ht : t ∈ statusTransitions m.status) :
    ∃ m2, (r.transition id t).2 = Except.ok m2 ∧
      m2.status = t ∧ m2.updated_at = r.now ∧
      m2.id = m.id ∧ m2.name = m.name ∧ m2.description = m.description ∧
      m2.framework = m.framework ∧ m2.current_version = m.current_version ∧
      m2.metrics = m.metrics ∧ m2.tags = m.tags ∧ m2.author = m.author ∧
      m2.created_at = m.created_at ∧
      (r.transition id t).1.versions = r.versions := by
  refine ⟨{ m with status := t, updated_at := r.now }, ?_⟩
  simp only [Registry.transition, hm]
  rw [if_pos ht]
  simp [Registry.setModel]

/-- Witness for C2 at a concrete registry, model and target status. -/
theorem transition_frame_witness :
    sampleRegistry.findModel 1 = some sampleModel ∧
    DeploymentStatus.staging ∈ statusTransitions sampleModel.status ∧
    ∃ m2, (sampleRegistry.transition 1 .staging).2 = Except.ok m2 ∧
      m2.status = .staging ∧ m2.updated_at = sampleRegistry.now ∧
      m2.id = sampleModel.id ∧ m2.name = sampleModel.name ∧
      m2.description = sampleModel.description ∧
      m2.framework = sampleModel.framework ∧
      m2.current_version = sampleModel.current_version ∧
      m2.metrics = sampleModel.metrics ∧ m2.tags = sampleModel.tags ∧
      m2.author = sampleModel.author ∧
      m2.created_at = sampleModel.created_at ∧
      (sampleRegistry.transition 1 .staging).1.versions = sampleRegistry.versions :=
  ⟨by decide, by decide,
    transition_frame sampleRegistry 1 .staging sampleModel (by decide) (by decide)⟩

/-- Allowed characters of a model name per the contract (section 3 of
the spec): letters, digits, hyphen, underscore, space. -/
def allowedNameChar (c : Char) : Bool :=
  c.isAlpha || c.isDigit || c == '-' || c == '_' || c == ' '

/-- Modelled from the spec: name validation of the Model Entity Store
(section 4.1); the backend is not part of the sources. A name is valid
when it is non-empty and every character is allowed. -/
def validName (s : String) : Bool :=
  (s != "") && s.data.all allowedNameChar

/-- Decode a raw framework string into the closed enumeration, rejecting
anything outside it (section 9 of the spec: illegal values are rejected
at the boundary). -/
def frameworkOfString : String → Option Framework
  | "sklearn" => some .sklearn
  | "tensorflow" => some .tensorflow
  | "pytorch" => some .pytorch
  | "xgboost" => some .xgboost
  | "lightgbm" => some .lightgbm
  | "onnx" => some .onnx
  | "other" => some .other
  | _ => none

/-- Registration payload, from the ModelCreate interface in the frontend
types module; the framework arrives as a raw string at the boundary. -/
structure ModelCreate where
  name : String
  description : Option String
  framework : String
  version : Option String
  metrics : List (String × Int)
  tags : List String
  author : Option String

/-- Modelled from the spec: register of the Model Entity Store
(section 4.1); the backend is not part of the sources. Fails with
InvalidArgument if the name is empty or has a disallowed character or
the framework is not in the enumeration; fails with Conflict on a
duplicate name; on success creates the model with status development
and one version record using the given version string, defaulted to
1.0.0 when omitted. -/
def Registry.register (r : Registry) (c : ModelCreate) :
    Registry × Except RegistryError Model :=
  if validName c.name = false then (r, .error .InvalidArgument)
  else
    match frameworkOfString c.framework with
    | none => (r, .error .InvalidArgument)
    | some fw =>
      if r.models.any (fun m => m.name == c.name) then (r, .error .Conflict)
      else
        let ver := c.version.getD "1.0.0"
        let m : Model :=
          { id := r.nextId, name := c.name, description := c.description,
            framework := fw, status := .development,
            current_version := some ver, metrics := c.metrics,
            tags := c.tags, author := c.author,
            created_at := r.now, updated_at := r.now }
        let v : ModelVersion :=
          { id := r.nextId + 1, model_id := r.nextId, version := ver,
            metrics := c.metrics, changelog := none, created_at := r.now }
        let r2 : Registry :=
          { models := r.models ++ [m], versions := r.versions ++ [v],
            nextId := r.nextId + 2, now := r.now }
        (r2, .ok m)

/-- C3: register fails with InvalidArgument exactly when the name is
empty or has a character outside the allowed set, or the framework is
not in the closed enumeration. -/
theorem register_invalid_argument_iff (r : Registry) (c : ModelCreate) :
    (r.register c).2 = Except.error RegistryError.InvalidArgument ↔
      (c.name = "" ∨ ¬ (∀ ch ∈ c.name.data, allowedNameChar ch = true) ∨
        frameworkOfString c.framework = none) := by
  have hval : validName c.name = true ↔
      (c.name ≠ "" ∧ ∀ ch ∈ c.name.data, allowedNameChar ch = true) := by
    simp [validName, List.all_eq_true]
  constructor
  · intro h
    by_contra hcon
    push_neg at hcon
    obtain ⟨h1, h2, h3⟩ := hcon
    have hv : validName c.name = true := hval.mpr ⟨h1, h2⟩
    simp only [Registry.register, hv] at h
    rcases hfw : frameworkOfString c.framework with _ | fw
    · exact h3 hfw
    · simp only [hfw] at h
      by_cases hc : r.models.any (fun m => m.name == c.name)
      · rw [if_pos hc] at h
        exact RegistryError.noConfusion (Except.error.inj h)
      · rw [if_neg hc] at h
        exact Except.noConfusion h
  · intro h
    by_cases hv : validName c.name = true
    · have hfwnone : frameworkOfString c.framework = none := by
        rcases h with h | h | h
        · exact absurd (hval.mp hv).1 (by simp [h])
        · exact absurd (hval.mp hv).2 h
        · exact h
      simp [Registry.register, hv, hfwnone]
    · simp only [Bool.not_eq_true] at hv
      simp [Registry.register, hv]

/-- C4: registering without an explicit version yields a model with
status development and current_version 1.0.0, and exactly one version
record exists for it, with version string 1.0.0. -/
theorem register_default_version (r : Registry) (c : ModelCreate)
    (fw : Framework)
    (hv : c.version = none)
    (hname : validName c.name = true)
    (hfw : frameworkOfString c.framework = some fw)
    (hdup : r.models.any (fun m => m.name == c.name) = false)
    (hfresh : ∀ v ∈ r.versions, (v.model_id == r.nextId) = false) :
    ∃ m, (r.register c).2 = Except.ok m ∧
      m.status = DeploymentStatus.development ∧
      m.current_version = some "1.0.0" ∧
      ((r.register c).1.versions.filter
        (fun v => v.model_id == m.id)).map ModelVersion.version = ["1.0.0"] := by
  simp only [Registry.register, hname, hfw, hdup, hv, Bool.true_eq_false,
    Bool.false_eq_true, if_false, Option.getD_none]
  refine ⟨_, rfl, rfl, rfl, ?_⟩
  rw [List.filter_append]
  have h1 : r.versions.filter (fun v => v.model_id == r.nextId) = [] := by
    rw [List.filter_eq_nil_iff]
    intro v hvmem
    simp [hfresh v hvmem]
  rw [h1]
  simp

/-- An empty registry used to instantiate theorems with hypotheses. -/
def emptyRegistry : Registry :=
  { models := [], versions := [], nextId := 1, now := 0 }

/-- A concrete registration payload with no explicit version. -/
def sampleCreate : ModelCreate :=
  { name := "churn-v1", description := none, framework := "sklearn",
    version := none, metrics := [], tags := [], author := none }

/-- Witness for C4 at the empty registry and a concrete payload. -/
theorem register_default_version_witness :
    sampleCreate.version = none ∧
    validName sampleCreate.name = true ∧
    frameworkOfString sampleCreate.framework = some .sklearn ∧
    emptyRegistry.models.any (fun m => m.name == sampleCreate.name) = false ∧
    (∀ v ∈ emptyRegistry.versions, (v.model_id == emptyRegistry.nextId) = false) ∧
    ∃ m, (emptyRegistry.register sampleCreate).2 = Except.ok m ∧
      m.status = DeploymentStatus.development ∧
      m.current_version = some "1.0.0" ∧
      ((emptyRegistry.register sampleCreate).1.versions.filter
        (fun v => v.model_id == m.id)).map ModelVersion.version = ["1.0.0"] :=
  ⟨by decide, by decide, by decide, by decide, by simp [emptyRegistry],
    register_default_version emptyRegistry sampleCreate .sklearn
      (by decide) (by decide) (by decide) (by decide)
      (by simp [emptyRegistry])⟩

/-- Metadata update payload, from the ModelUpdate interface in the
frontend types module: only name, description and tags can be given. -/
structure ModelUpdate where
  name : Option String
  description : Option String
  tags : Option (List String)

/-- Modelled from the spec: updateMetadata of the Model Entity Store
(section 4.1); the backend is not part of the sources. Fails with
NotFound if the model is absent and with Conflict if the new name
collides with a different model; otherwise overwrites only the fields
present in the payload, plus updated_at. -/
def Registry.updateMetadata (r : Registry) (id : Nat) (u : ModelUpdate) :
    Registry × Except RegistryError Model :=
  match r.findModel id with
  | none => (r, .error .NotFound)
  | some m =>
    let newName := u.name.getD m.name
    if r.models.any (fun x => x.name == newName && x.id != id) then
      (r, .error .Conflict)
    else
      let m2 : Model :=
        { m with name := newName,
                 description := match u.description with
                   | some d => some d
                   | none => m.description,
                 tags := u.tags.getD m.tags,
                 updated_at := r.now }
      (r.setModel m2, .ok m2)

/-- C5: a successful updateMetadata leaves framework, author, status,
metrics, id, created_at and current_version of the model unchanged; only
name, description, tags and updated_at can differ. -/
theorem updateMetadata_frame (r : Registry) (id : Nat) (u : ModelUpdate)
    (m m2 : Model) (hm : r.findModel id = some m)
    (hok : (r.updateMetadata id u).2 = Except.ok m2) :
    m2.framework = m.framework ∧ m2.author = m.author ∧
    m2.status = m.status ∧ m2.metrics = m.metrics ∧
    m2.id = m.id ∧ m2.created_at = m.created_at ∧
    m2.current_version = m.current_version := by
  simp only [Registry.updateMetadata, hm] at hok
  by_cases hc : r.models.any (fun x => x.name == (u.name.getD m.name) && x.id != id)
  · rw [if_pos hc] at hok
    exact absurd hok (by simp)
  · rw [if_neg hc] at hok
    have h2 := Except.ok.inj hok
    subst h2
    exact ⟨rfl, rfl, rfl, rfl, rfl, rfl, rfl⟩

/-- A concrete metadata update payload. -/
def sampleUpdate : ModelUpdate :=
  { name := some "churn-v2", description := some "updated", tags := some ["tabular"] }

/-- Witness for C5 at a concrete registry, model and payload. -/
theorem updateMetadata_frame_witness :
    sampleRegistry.findModel 1 = some sampleModel ∧
    ∃ m2, (sampleRegistry.updateMetadata 1 sampleUpdate).2 = Except.ok m2 ∧
      (m2.framework = sampleModel.framework ∧ m2.author = sampleModel.author ∧
       m2.status = sampleModel.status ∧ m2.metrics = sampleModel.metrics ∧
       m2.id = sampleModel.id ∧ m2.created_at = sampleModel.created_at ∧
       m2.current_version = sampleModel.current_version) := by
  refine ⟨by decide, ?_⟩
  have hres : (sampleRegistry.updateMetadata 1 sampleUpdate).2 = Except.ok
      { sampleModel with
          name := "churn-v2"
          description := some "updated"
          tags := ["tabular"]
          updated_at := 7 } := rfl
  exact ⟨_, hres, updateMetadata_frame sampleRegistry 1 sampleUpdate
    sampleModel _ (by decide) hres⟩

/-- Check whether the first list is an initial segment of the second. -/
def leadsList : List Char → List Char → Bool
  | [], _ => true
  | _ :: _, [] => false
  | a :: as, b :: bs => a == b && leadsList as bs

/-- Check whether the first list occurs as a contiguous run inside the
second. -/
def occursIn (needle : List Char) : List Char → Bool
  | [] => needle.isEmpty
  | c :: rest => leadsList needle (c :: rest) || occursIn needle rest

/-- Case-insensitive substring match of the query against a name. -/
def searchMatches (q name : String) : Bool :=
  occursIn (q.data.map Char.toLower) (name.data.map Char.toLower)

/-- Modelled from the spec: the filter predicate of the Query/Filter
Engine (section 4.2); the backend is not part of the sources. All
provided filters are ANDed: exact framework match, exact status match,
case-insensitive substring match of search against the name. -/
def matchesFilter (fw : Option Framework) (st : Option DeploymentStatus)
    (q : Option String) (m : Model) : Bool :=
  (match fw with | none => true | some f => m.framework == f) &&
  (match st with | none => true | some s => m.status == s) &&
  (match q with | none => true | some s => searchMatches s m.name)

/-- List query filters, from the ModelFilters interface in the frontend
types module. -/
structure ModelFilters where
  skip : Option Nat
  limit : Option Nat
  framework : Option Framework
  status : Option DeploymentStatus
  search : Option String

/-- List response shape, from the ModelListResponse interface in the
frontend types module. -/
structure ModelListResponse where
  items : List Model
  total : Nat
  skip : Nat
  limit : Nat

/-- Modelled from the spec: list of the Query/Filter Engine
(section 4.2); the backend is not part of the sources. Filters are
ANDed, ordering is the stable stored order, skip defaults to 0, limit
defaults to 20 and is clamped to a minimum of 1 and a cap of 100; total
counts the matches before pagination, and skip and limit echo the
effective values used. -/
def Registry.list (r : Registry) (f : ModelFilters) : ModelListResponse :=
  let matching := r.models.filter (matchesFilter f.framework f.status f.search)
  let skip := f.skip.getD 0
  let limit := min 100 (max 1 (f.limit.getD 20))
  { items := (matching.drop skip).take limit,
    total := matching.length, skip := skip, limit := limit }

/-- The filters of page i for page size N, under a fixed framework,
status and search filter. -/
def pageFilters (fw : Option Framework) (st : Option DeploymentStatus)
    (q : Option String) (N i : Nat) : ModelFilters :=
  { skip := some (i * N), limit := some N, framework := fw, status := st, search := q }

/-- The full result set matching a filter, before pagination. -/
def matchingModels (r : Registry) (fw : Option Framework)
    (st : Option DeploymentStatus) (q : Option String) : List Model :=
  r.models.filter (matchesFilter fw st q)

/-- Concatenating consecutive pages of size N recovers a prefix of the
underlying list. -/
theorem join_pages_eq_take {α : Type} (l : List α) (N : Nat) (k : Nat) :
    ((List.range k).map (fun i => (l.drop (i * N)).take N)).flatten = l.take (k * N) := by
  induction k with
  | zero => simp
  | succ k ih =>
    rw [List.range_succ, List.map_append, List.flatten_append, ih]
    simp only [List.map_cons, List.map_nil, List.flatten_cons, List.flatten_nil,
      List.append_nil]
    rw [Nat.succ_mul, List.take_add]

/-- C6: fixing a filter and a page size N between 1 and the cap, the
pages with skip 0, N, 2N, ... partition the matching result set with no
element repeated and none missed; every response echoes skip and limit
and reports total as the count of matches before pagination, and a skip
at or beyond the total yields empty items. -/
theorem list_pagination (r : Registry) (fw : Option Framework)
    (st : Option DeploymentStatus) (q : Option String) (N : Nat)
    (h1 : 1 ≤ N) (h2 : N ≤ 100) :
    (∀ i, (r.list (pageFilters fw st q N i)).total = (matchingModels r fw st q).length ∧
          (r.list (pageFilters fw st q N i)).skip = i * N ∧
          (r.list (pageFilters fw st q N i)).limit = N) ∧
    (∀ k, ((List.range k).map (fun i => (r.list (pageFilters fw st q N i)).items)).flatten
          = (matchingModels r fw st q).take (k * N)) ∧
    (∀ k, (matchingModels r fw st q).length ≤ k * N →
          ((List.range k).map (fun i => (r.list (pageFilters fw st q N i)).items)).flatten
          = matchingModels r fw st q) ∧
    (∀ i, (matchingModels r fw st q).length ≤ i * N →
          (r.list (pageFilters fw st q N i)).items = []) := by
  have hitem : ∀ i, (r.list (pageFilters fw st q N i)).items =
      ((matchingModels r fw st q).drop (i * N)).take N := by
    intro i
    simp only [Registry.list, pageFilters, Option.getD_some, matchingModels]
    rw [Nat.max_eq_right h1, Nat.min_eq_right h2]
  refine ⟨?_, ?_, ?_, ?_⟩
  · intro i
    refine ⟨rfl, rfl, ?_⟩
    simp only [Registry.list, pageFilters, Option.getD_some]
    rw [Nat.max_eq_right h1, Nat.min_eq_right h2]
  · intro k
    simp only [hitem]
    exact join_pages_eq_take _ N k
  · intro k hk
    simp only [hitem]
    rw [join_pages_eq_take _ N k]
    exact List.take_of_length_le hk
  · intro i hi
    rw [hitem i, List.drop_eq_nil_of_le hi, List.take_nil]

/-- Witness for C6 at a concrete registry, empty filter and page size 1. -/
theorem list_pagination_witness :
    (1 ≤ 1 ∧ 1 ≤ 100) ∧
    ((∀ i, (sampleRegistry.list (pageFilters none none none 1 i)).total =
            (matchingModels sampleRegistry none none none).length ∧
          (sampleRegistry.list (pageFilters none none none 1 i)).skip = i * 1 ∧
          (sampleRegistry.list (pageFilters none none none 1 i)).limit = 1) ∧
    (∀ k, ((List.range k).map
            (fun i => (sampleRegistry.list (pageFilters none none none 1 i)).items)).flatten
          = (matchingModels sampleRegistry none none none).take (k * 1)) ∧
    (∀ k, (matchingModels sampleRegistry none none none).length ≤ k * 1 →
          ((List.range k).map
            (fun i => (sampleRegistry.list (pageFilters none none none 1 i)).items)).flatten
          = matchingModels sampleRegistry none none none) ∧
    (∀ i, (matchingModels sampleRegistry none none none).length ≤ i * 1 →
          (sampleRegistry.list (pageFilters none none none 1 i)).items = [])) :=
  ⟨⟨by decide, by decide⟩,
    list_pagination sampleRegistry none none none 1 (by decide) (by decide)⟩

/-- An HTTP response as seen by the frontend fetch wrapper: the numeric
status code, the statusText, and the outcome of parsing the body as the
JSON error shape (some detail when the body is JSON with a detail
string, none when the body cannot be parsed as JSON). -/
structure HttpResponse where
  status : Nat
  statusText : String
  jsonDetail : Option String

/-- The ok flag of a fetch response: the status is in the 2xx range. -/
def responseOk (resp : HttpResponse) : Bool :=
  decide (200 ≤ resp.status ∧ resp.status ≤ 299)

/-- The error carried by a failed request, from the ApiException class
in the API service module: the response status and a detail string. -/
structure ApiException where
  status : Nat
  detail : String
deriving DecidableEq, Repr

/-- The fetch wrapper apiRequest from the API service module: on a
response that is not ok it throws an ApiException with the response
status and the detail of the JSON error body, falling back to the
statusText when the body cannot be parsed as JSON; on an ok response
it succeeds. -/
def apiRequest (resp : HttpResponse) : Except ApiException Unit :=
  if responseOk resp then .ok ()
  else
    .error { status := resp.status,
             detail := match resp.jsonDetail with
               | some d => d
               | none => resp.statusText }

/-- The user-facing message derived from a request outcome, from the
hooks module useApi: the detail of the thrown ApiException. -/
def surfacedMessage : Except ApiException Unit → Option String
  | .ok _ => none
  | .error e => some e.detail

/-- C7: every non-2xx response makes apiRequest throw an ApiException
carrying the response status and the detail of the JSON error body,
with statusText as the fallback detail when the body is not JSON, and
that detail is the surfaced user-facing message. -/
theorem api_error_detail (resp : HttpResponse)
    (h : ¬ (200 ≤ resp.status ∧ resp.status ≤ 299)) :
    apiRequest resp = Except.error
      { status := resp.status, detail := resp.jsonDetail.getD resp.statusText } ∧
    surfacedMessage (apiRequest resp) = some (resp.jsonDetail.getD resp.statusText) := by
  obtain ⟨st, stx, jd⟩ := resp
  have hok : responseOk ⟨st, stx, jd⟩ = false := by
    simp only [responseOk, decide_eq_false_iff_not]
    exact h
  have heq : apiRequest ⟨st, stx, jd⟩ = Except.error
      { status := st, detail := jd.getD stx } := by
    simp only [apiRequest, hok, Bool.false_eq_true, if_false]
    cases jd <;> rfl
  exact ⟨heq, by rw [heq]; rfl⟩

/-- A concrete failing response whose body is valid JSON. -/
def notFoundResponse : HttpResponse :=
  { status := 404, statusText := "Not Found", jsonDetail := some "Model not found" }

/-- Witness for C7 at a concrete 404 response. -/
theorem api_error_detail_witness :
    (¬ (200 ≤ notFoundResponse.status ∧ notFoundResponse.status ≤ 299)) ∧
    (apiRequest notFoundResponse = Except.error
      { status := notFoundResponse.status,
        detail := notFoundResponse.jsonDetail.getD notFoundResponse.statusText } ∧
     surfacedMessage (apiRequest notFoundResponse) =
       some (notFoundResponse.jsonDetail.getD notFoundResponse.statusText)) :=
  ⟨by decide, api_error_detail notFoundResponse (by decide)⟩

/-- All four deployment statuses. -/
def allStatuses : List DeploymentStatus :=
  [.development, .staging, .production, .archived]

/-- All seven frameworks. -/
def allFrameworks : List Framework :=
  [.sklearn, .tensorflow, .pytorch, .xgboost, .lightgbm, .onnx, .other]

/-- Dashboard statistics shape, from the DashboardStats interface in the
frontend types module; the two mappings are association lists. -/
structure DashboardStats where
  total_models : Nat
  models_by_status : List (DeploymentStatus × Nat)
  models_by_framework : List (Framework × Nat)
  recent_models : List Model

/-- Modelled from the spec: getStats of the Statistics Aggregator
(section 4.3); the backend is not part of the sources. The count of all
models, counts keyed by exactly the statuses present and by exactly the
frameworks present, and the five most recent models. -/
def Registry.getStats (r : Registry) : DashboardStats :=
  { total_models := r.models.length,
    models_by_status :=
      (allStatuses.filter (fun s => r.models.any (fun m => m.status == s))).map
        (fun s => (s, (r.models.filter (fun m => m.status == s)).length)),
    models_by_framework :=
      (allFrameworks.filter (fun f => r.models.any (fun m => m.framework == f))).map
        (fun f => (f, (r.models.filter (fun m => m.framework == f)).length)),
    recent_models := r.models.reverse.take 5 }

/-- Keys whose indicator never fires contribute nothing, so filtering a
key list to the live keys preserves a sum of counts. -/
theorem sum_map_filter_keys {κ : Type} (keys : List κ) (p : κ → Bool)
    (f : κ → Nat) (h0 : ∀ k ∈ keys, p k = false → f k = 0) :
    ((keys.filter p).map f).sum = (keys.map f).sum := by
  induction keys with
  | nil => rfl
  | cons k ks ih =>
    have ih2 := ih (fun x hx => h0 x (List.mem_cons_of_mem k hx))
    rw [List.filter_cons]
    by_cases hp : p k = true
    · rw [if_pos hp]
      simp only [List.map_cons, List.sum_cons]
      rw [ih2]
    · rw [if_neg hp, ih2]
      simp only [List.map_cons, List.sum_cons]
      rw [h0 k (List.mem_cons_self k ks) (Bool.eq_false_iff.mpr hp)]
      omega

/-- Summing the indicator of a fixed element over a duplicate-free list
containing it gives one. -/
theorem sum_indicator_one {κ : Type} [DecidableEq κ] (keys : List κ) (a : κ)
    (hmem : a ∈ keys) (hnd : keys.Nodup) :
    (keys.map (fun k => if a = k then 1 else 0)).sum = 1 := by
  induction keys with
  | nil => cases hmem
  | cons k ks ih =>
    rcases List.mem_cons.mp hmem with h | h
    · have hk : a ∉ ks := by
        rw [h]
        exact (List.nodup_cons.mp hnd).1
      simp only [List.map_cons, List.sum_cons, ← h, if_pos rfl]
      have hz : (ks.map (fun x => if a = x then 1 else 0)).sum = 0 := by
        rw [List.sum_eq_zero]
        intro x hx
        rcases List.mem_map.mp hx with ⟨y, hy, hxy⟩
        rw [← hxy, if_neg]
        intro he
        rw [he] at hk
        exact hk hy
      rw [hz]
      simp
    · have hk2 : a ≠ k := by
        intro he
        rw [he] at h
        exact (List.nodup_cons.mp hnd).1 h
      simp only [List.map_cons, List.sum_cons, if_neg hk2, Nat.zero_add]
      exact ih h (List.nodup_cons.mp hnd).2

/-- Sums distribute over a pointwise addition under a map. -/
theorem sum_map_add_pointwise {κ : Type} (l : List κ) (f g : κ → Nat) :
    (l.map (fun k => f k + g k)).sum = (l.map f).sum + (l.map g).sum := by
  induction l with
  | nil => rfl
  | cons k ks ih =>
    simp only [List.map_cons, List.sum_cons, ih]
    omega

/-- Partition counting: when every element carries exactly one key and
the key list is duplicate-free and covers all elements, the per-key
counts sum to the element count. -/
theorem sum_counts_all_keys {κ : Type} [DecidableEq κ] (keys : List κ)
    (key : Model → κ) (ms : List Model) (hnd : keys.Nodup)
    (hcover : ∀ m ∈ ms, key m ∈ keys) :
    (keys.map (fun k => (ms.filter (fun m => key m == k)).length)).sum
      = ms.length := by
  induction ms with
  | nil => simp
  | cons m ms ih =>
    have hsplit : ∀ k : κ, (List.filter (fun x => key x == k) (m :: ms)).length
        = (if key m = k then 1 else 0)
          + (List.filter (fun x => key x == k) ms).length := by
      intro k
      rw [List.filter_cons]
      by_cases h : key m = k
      · simp [h, Nat.add_comm]
      · simp [h]
    simp only [hsplit]
    rw [sum_map_add_pointwise keys (fun k => if key m = k then 1 else 0)
        (fun k => (List.filter (fun x => key x == k) ms).length),
      sum_indicator_one keys (key m) (hcover m (List.mem_cons_self m ms)) hnd,
      ih (fun x hx => hcover x (List.mem_cons_of_mem m hx))]
    simp [Nat.add_comm]

/-- C8: getStats reports total_models as the number of models, the
by-status counts and the by-framework counts each sum to total_models,
and every key of either mapping is a status or framework that actually
occurs among the models. -/
theorem getStats_partition (r : Registry) :
    (r.getStats).total_models = r.models.length ∧
    ((r.getStats).models_by_status.map Prod.snd).sum = (r.getStats).total_models ∧
    ((r.getStats).models_by_framework.map Prod.snd).sum = (r.getStats).total_models ∧
    (∀ p ∈ (r.getStats).models_by_status, ∃ m ∈ r.models, m.status = p.1) ∧
    (∀ p ∈ (r.getStats).models_by_framework, ∃ m ∈ r.models, m.framework = p.1) := by
  refine ⟨rfl, ?_, ?_, ?_, ?_⟩
  · simp only [Registry.getStats, List.map_map]
    have hstep : ((allStatuses.filter
        (fun s => r.models.any (fun m => m.status == s))).map
          (fun s => (r.models.filter (fun m => m.status == s)).length)).sum
        = (allStatuses.map
          (fun s => (r.models.filter (fun m => m.status == s)).length)).sum := by
      refine sum_map_filter_keys _ _ _ ?_
      intro s _ hany
      have hnone : ∀ m ∈ r.models, ¬ (m.status == s) = true := by
        simpa using List.any_eq_false.mp hany
      simp [List.filter_eq_nil_iff.mpr hnone]
    have hall := sum_counts_all_keys allStatuses Model.status r.models
      (by decide) (fun m _ => by cases m.status <;> decide)
    calc ((allStatuses.filter (fun s => r.models.any (fun m => m.status == s))).map
            ((fun s => (s, (r.models.filter (fun m => m.status == s)).length)) · |>.snd)).sum
        = ((allStatuses.filter (fun s => r.models.any (fun m => m.status == s))).map
            (fun s => (r.models.filter (fun m => m.status == s)).length)).sum := rfl
      _ = _ := by rw [hstep, hall]
  · simp only [Registry.getStats, List.map_map]
    have hstep : ((allFrameworks.filter
        (fun f => r.models.any (fun m => m.framework == f))).map
          (fun f => (r.models.filter (fun m => m.framework == f)).length)).sum
        = (allFrameworks.map
          (fun f => (r.models.filter (fun m => m.framework == f)).length)).sum := by
      refine sum_map_filter_keys _ _ _ ?_
      intro f _ hany
      have hnone : ∀ m ∈ r.models, ¬ (m.framework == f) = true := by
        simpa using List.any_eq_false.mp hany
      simp [List.filter_eq_nil_iff.mpr hnone]
    have hall := sum_counts_all_keys allFrameworks Model.framework r.models
      (by decide) (fun m _ => by cases m.framework <;> decide)
    calc ((allFrameworks.filter (fun f => r.models.any (fun m => m.framework == f))).map
            ((fun f => (f, (r.models.filter (fun m => m.framework == f)).length)) · |>.snd)).sum
        = ((allFrameworks.filter (fun f => r.models.any (fun m => m.framework == f))).map
            (fun f => (r.models.filter (fun m => m.framework == f)).length)).sum := rfl
      _ = _ := by rw [hstep, hall]
  · intro p hp
    simp only [Registry.getStats, List.mem_map, List.mem_filter] at hp
    rcases hp with ⟨s, ⟨_, hany⟩, hps⟩
    rcases List.any_eq_true.mp hany with ⟨m, hms, hmb⟩
    exact ⟨m, hms, by rw [← hps]; exact beq_iff_eq.mp hmb⟩
  · intro p hp
    simp only [Registry.getStats, List.mem_map, List.mem_filter] at hp
    rcases hp with ⟨f, ⟨_, hany⟩, hpf⟩
    rcases List.any_eq_true.mp hany with ⟨m, hms, hmb⟩
    exact ⟨m, hms, by rw [← hpf]; exact beq_iff_eq.mp hmb⟩

/-- Whitespace trimming on a character list: drop whitespace from both
ends, as the trim method does on the tag input. -/
def trimChars (s : List Char) : List Char :=
  ((s.dropWhile Char.isWhitespace).reverse.dropWhile Char.isWhitespace).reverse

/-- Normalization applied by addTag in ModelForm: trim the input, then
lowercase it. -/
def normalizeTag (s : List Char) : List Char :=
  (trimChars s).map Char.toLower

/-- The addTag handler from ModelForm: normalize the input and append
it, unless the result is blank or already present. -/
def addTag (input : List Char) (tags : List (List Char)) : List (List Char) :=
  if normalizeTag input ≠ [] ∧ normalizeTag input ∉ tags
  then tags ++ [normalizeTag input] else tags

/-- The removeTag handler from ModelForm: keep every tag except the
removed one. -/
def removeTag (t : List Char) (tags : List (List Char)) : List (List Char) :=
  tags.filter (fun x => x != t)

/-- One interaction with the tag editor: an add with a raw input, or a
removal of a displayed tag. -/
inductive TagOp where
  | add (input : List Char)
  | remove (t : List Char)

/-- Apply one tag operation to the current tag list. -/
def applyTagOp (tags : List (List Char)) : TagOp → List (List Char)
  | .add input => addTag input tags
  | .remove t => removeTag t tags

/-- Apply a sequence of tag operations to the initially empty form. -/
def applyTagOps (ops : List TagOp) : List (List Char) :=
  ops.foldl applyTagOp []

/-- The tag list invariant: duplicate-free, every tag non-blank and
fixed by lowercasing (no character changes under toLower). -/
def TagsOk (tags : List (List Char)) : Prop :=
  tags.Nodup ∧ ∀ t ∈ tags, t ≠ [] ∧ ∀ c ∈ t, Char.toLower c = c

/-- Lowercasing a character twice is the same as doing it once. -/
theorem toLower_toLower (c : Char) :
    Char.toLower (Char.toLower c) = Char.toLower c := by
  by_cases h : c.toNat ≥ 65 ∧ c.toNat ≤ 90
  · have h1 : Char.toLower c = Char.ofNat (c.toNat + 32) := by
      simp only [Char.toLower]
      rw [if_pos h]
    rw [h1]
    obtain ⟨ha, hb⟩ := h
    generalize c.toNat = n at ha hb ⊢
    interval_cases n <;> decide
  · have h1 : Char.toLower c = c := by
      simp only [Char.toLower]
      rw [if_neg h]
    rw [h1, h1]

/-- Every character of a normalized tag is fixed by lowercasing. -/
theorem normalizeTag_lower (s : List Char) :
    ∀ c ∈ normalizeTag s, Char.toLower c = c := by
  intro c hc
  rcases List.mem_map.mp hc with ⟨b, _, hcb⟩
  rw [← hcb]
  exact toLower_toLower b

/-- Adding a tag preserves the tag list invariant. -/
theorem addTag_ok (input : List Char) (tags : List (List Char))
    (h : TagsOk tags) : TagsOk (addTag input tags) := by
  obtain ⟨hnd, hall⟩ := h
  rw [addTag]
  by_cases hc : normalizeTag input ≠ [] ∧ normalizeTag input ∉ tags
  · rw [if_pos hc]
    constructor
    · rw [List.nodup_append]
      refine ⟨hnd, List.nodup_singleton _, ?_⟩
      intro x hx hy
      rw [List.mem_singleton.mp hy] at hx
      exact hc.2 hx
    · intro t ht
      rcases List.mem_append.mp ht with h1 | h1
      · exact hall t h1
      · rw [List.mem_singleton.mp h1]
        exact ⟨hc.1, normalizeTag_lower input⟩
  · rw [if_neg hc]
    exact ⟨hnd, hall⟩

/-- Removing a tag preserves the tag list invariant. -/
theorem removeTag_ok (t : List Char) (tags : List (List Char))
    (h : TagsOk tags) : TagsOk (removeTag t tags) := by
  obtain ⟨hnd, hall⟩ := h
  exact ⟨hnd.filter _, fun x hx => hall x (List.mem_of_mem_filter hx)⟩

/-- The invariant is preserved by any run of tag operations. -/
theorem foldl_tagOps_ok (ops : List TagOp) :
    ∀ tags, TagsOk tags → TagsOk (ops.foldl applyTagOp tags) := by
  induction ops with
  | nil =>
    intro tags h
    exact h
  | cons op ops ih =>
    intro tags h
    rw [List.foldl_cons]
    apply ih
    cases op with
    | add input => exact addTag_ok input tags h
    | remove t => exact removeTag_ok t tags h

/-- C9: starting from the empty form, any sequence of tag additions and
removals keeps the tag list duplicate-free, non-blank and lowercase, in
insertion order; an addition normalizes (trims and lowercases) the raw
input, refuses a blank or duplicate result, and otherwise appends the
new tag at the end. -/
theorem tags_form_invariant (ops : List TagOp) :
    TagsOk (applyTagOps ops) ∧
    ∀ (input : List Char) (tags : List (List Char)),
      addTag input tags =
        if normalizeTag input ≠ [] ∧ normalizeTag input ∉ tags
        then tags ++ [((input.dropWhile Char.isWhitespace).reverse.dropWhile
          Char.isWhitespace).reverse.map Char.toLower]
        else tags :=
  ⟨foldl_tagOps_ok ops [] ⟨List.nodup_nil, by simp⟩, fun _ _ => rfl⟩

/-- A value in a filters object, as buildQueryString sees it: the
JavaScript undefined and null, a string, or a number (modelled as a
natural). -/
inductive QueryValue where
  | undef
  | nullv
  | str (s : String)
  | nat (n : Nat)
deriving DecidableEq, Repr

/-- The keep test of buildQueryString in the API service module: a
value is appended when it is not undefined, not null and not the empty
string. -/
def valueKept : QueryValue → Bool
  | .undef => false
  | .nullv => false
  | .str s => s != ""
  | .nat _ => true

/-- JavaScript String conversion of a query value. -/
def valueToString : QueryValue → String
  | .undef => "undefined"
  | .nullv => "null"
  | .str s => s
  | .nat n => toString n

/-- The parameter pairs appended by buildQueryString, in order. -/
def buildParams (filters : List (String × QueryValue)) : List (String × String) :=
  (filters.filter (fun kv => valueKept kv.2)).map
    (fun kv => (kv.1, valueToString kv.2))

/-- Rendering of the appended parameters: empty when none was kept,
otherwise a question mark and the ampersand-joined pairs, as
buildQueryString returns. -/
def renderQuery (ps : List (String × String)) : String :=
  match ps with
  | [] => ""
  | _ => "?" ++ String.intercalate "&" (ps.map (fun kv => kv.1 ++ "=" ++ kv.2))

/-- buildQueryString from the API service module. -/
def buildQueryString (filters : List (String × QueryValue)) : String :=
  renderQuery (buildParams filters)

/-- The URL of the list request issued by the models API. -/
def listRequestUrl (filters : List (String × QueryValue)) : String :=
  "/models" ++ buildQueryString filters

/-- C10: the request query contains exactly the entries whose value is
neither undefined nor null nor the empty string: such an entry is
dropped, and inserting it anywhere yields the same request URL as
omitting the field, while any other entry appears in place with its
stringified value. -/
theorem query_string_entries (pre post : List (String × QueryValue))
    (k : String) (v : QueryValue) :
    (v = .undef ∨ v = .nullv ∨ v = .str "" →
      listRequestUrl (pre ++ (k, v) :: post) = listRequestUrl (pre ++ post)) ∧
    (v ≠ .undef ∧ v ≠ .nullv ∧ v ≠ .str "" →
      buildParams (pre ++ (k, v) :: post)
        = buildParams pre ++ (k, valueToString v) :: buildParams post) := by
  constructor
  · intro h
    have hk : valueKept v = false := by
      rcases h with h | h | h <;> rw [h] <;> rfl
    unfold listRequestUrl buildQueryString buildParams
    rw [List.filter_append, List.filter_append, List.filter_cons, hk]
    simp
  · rintro ⟨h1, h2, h3⟩
    have hk : valueKept v = true := by
      cases v with
      | undef => exact absurd rfl h1
      | nullv => exact absurd rfl h2
      | str s =>
        have hs : s ≠ "" := fun he => h3 (by rw [he])
        simp [valueKept, hs]
      | nat n => rfl
    unfold buildParams
    rw [List.filter_append, List.filter_cons, hk]
    simp

/-- Witness for C10: a search field holding the empty string produces
the same request URL as omitting it. -/
theorem query_string_entries_witness :
    listRequestUrl
      [("skip", QueryValue.nat 0), ("search", QueryValue.str ""), ("limit", QueryValue.nat 10)]
      = listRequestUrl [("skip", QueryValue.nat 0), ("limit", QueryValue.nat 10)] :=
  (query_string_entries [("skip", QueryValue.nat 0)] [("limit", QueryValue.nat 10)]
    "search" (QueryValue.str "")).1 (Or.inr (Or.inr rfl))

end MLRegistry
